import Mathlib

/-!
# Verification of the AI Employee Vault work-coordination layer

A shallow embedding of the work-coordination core of the repository:

* `Agents/claim_manager.py` — the claim-by-move protocol (`ClaimManager`);
* `Agents/orchestrator.py` — the process supervisor (`AgentProcess`,
  `Orchestrator.health_check`);
* `Agents/hitl_approval.py` — the HITL approval gate (`check_approved`,
  `_extract_action_type`, the action-handler table);
* `Agents/config.py` — the `DRY_RUN` switch.

Modelling conventions:

* A task file is a record of its name, content and modification time
  (seconds).  A queue directory is a list of such files; names are unique
  per directory in any reachable state.
* The vault filesystem is split, following the source layout, into the
  per-worker scratch directories under `In_Progress/` (a finite association
  list, since `is_claimed_by_anyone` iterates over them) and the stage
  directories, addressed by name.
* `shutil.move` of a file onto an existing same-named destination file is
  `os.rename`, which on POSIX silently replaces the destination; the move
  is modelled with exactly that overwrite semantics (`putFile`).
* Fallible filesystem primitives are driven by an explicit error oracle.
  A Python statement inside a `try/except` that its enclosing method
  catches degrades to a `none` result; an exception outside every `try`
  is modelled as `Except.error`.  `Path.exists` swallows `OSError` and is
  total.  The audit logger is a fire-and-forget collaborator and is
  modelled as a pure append where the claims mention it.
-/

namespace Vault

/-- A task file: its name, its content, and its `st_mtime` in seconds. -/
structure File where
  name : String
  content : String
  mtime : Nat
deriving DecidableEq, Repr

/-- A queue directory: the list of task files currently in it. -/
abbrev Queue := List File

/-- Look a directory up in an association list of directories
(`In_Progress/<agent>/`); a name that is not present denotes an empty
(absent) directory. -/
def getQ : List (String × Queue) → String → Queue
  | [], _ => []
  | (b, r) :: rest, a => if b = a then r else getQ rest a

/-- Replace (or, when absent, create) a directory in an association list of
directories. -/
def setQ : List (String × Queue) → String → Queue → List (String × Queue)
  | [], a, q => [(a, q)]
  | (b, r) :: rest, a, q => if b = a then (a, q) :: rest else (b, r) :: setQ rest a q

/-- Place `f` in a directory by rename: on POSIX, `os.rename` silently
replaces an existing same-named destination entry. -/
def putFile (q : Queue) (f : File) : Queue :=
  q.filter (fun g => !(g.name == f.name)) ++ [f]

/-- The vault: the per-worker scratch directories under `In_Progress/`
(the `ClaimManager` constructor creates the claiming worker's directory),
and the stage directories (`Needs_Action`, `Done`, …) addressed by path. -/
structure FS where
  inProgress : List (String × Queue)
  dirs : String → Queue

/-- Which filesystem primitives raise `OSError`, per call site:
`scanFails` — the `IN_PROGRESS_DIR.iterdir()` scan inside
`is_claimed_by_anyone`; `mkdirFails` — `destination.mkdir(...)` in
`release`; `moveFails n` — `shutil.move` of the file named `n`. -/
structure ErrOracle where
  scanFails : Bool
  mkdirFails : Bool
  moveFails : String → Bool

/-- The all-succeeds oracle: no filesystem call raises. -/
def noErr : ErrOracle := ⟨false, false, fun _ => false⟩

/-- Python's `name.startswith(".")`: the hidden-file test. -/
def hiddenName (n : String) : Bool :=
  List.isPrefixOf ".".data n.data

/-- `ClaimManager.is_claimed_by_anyone`: scan every worker directory under
`In_Progress/` for a file of the given name. -/
def is_claimed_by_anyone (fs : FS) (n : String) : Bool :=
  fs.inProgress.any (fun wq => wq.2.any (fun f => f.name == n))

/-- `ClaimManager.claim`: check the source file exists, check no worker's
scratch directory holds the name, then `shutil.move` it into
`In_Progress/<agent>/`.  The scratch scan is outside the `try`, so an
`OSError` there propagates; a failed move is caught and yields `none`. -/
def claimE (agent : String) (err : ErrOracle) (fs : FS) (src : String)
    (n : String) : Except Unit (Option String × FS) :=
  match (fs.dirs src).find? (fun f => f.name == n) with
  | none => .ok (none, fs)
  | some f =>
    if err.scanFails then .error ()
    else if is_claimed_by_anyone fs n then .ok (none, fs)
    else if err.moveFails n then .ok (none, fs)
    else
      .ok (some ("In_Progress/" ++ agent ++ "/" ++ n),
        { inProgress :=
            setQ fs.inProgress agent (putFile (getQ fs.inProgress agent) f),
          dirs := fun d =>
            if d = src then (fs.dirs src).filter (fun g => !(g.name == n))
            else fs.dirs d })

/-- `ClaimManager.release`: check the claimed file still exists, run
`destination.mkdir(...)` (outside the `try`: an `OSError` there
propagates), then `shutil.move` it from the scratch directory into the
destination stage directory; a failed move is caught and yields `none`. -/
def releaseE (agent : String) (err : ErrOracle) (fs : FS) (dest : String)
    (n : String) : Except Unit (Option String × FS) :=
  match (getQ fs.inProgress agent).find? (fun f => f.name == n) with
  | none => .ok (none, fs)
  | some f =>
    if err.mkdirFails then .error ()
    else if err.moveFails n then .ok (none, fs)
    else
      .ok (some (dest ++ "/" ++ n),
        { inProgress :=
            setQ fs.inProgress agent
              ((getQ fs.inProgress agent).filter (fun g => !(g.name == n))),
          dirs := fun d =>
            if d = dest then putFile (fs.dirs dest) f else fs.dirs d })

/-- `ClaimManager.release_to_done`: release into the `Done` stage queue. -/
def release_to_done (agent : String) (err : ErrOracle) (fs : FS)
    (n : String) : Except Unit (Option String × FS) :=
  releaseE agent err fs "Done" n

/-- `ClaimManager.list_claimed`: the non-hidden files of this worker's
scratch directory. -/
def list_claimed (agent : String) (fs : FS) : Queue :=
  (getQ fs.inProgress agent).filter (fun f => !(hiddenName f.name))

/-- Staleness test of `abandon_stale`: in the source,
`(now - f.stat().st_mtime) / 3600 > max_age_hours` with real division,
which for whole-second times is `now - mtime > 3600 * max_age_hours`. -/
def isStale (now maxAgeHours : Nat) (f : File) : Bool :=
  3600 * maxAgeHours < now - f.mtime

/-- The state change of one successful `shutil.move` from the worker's
scratch directory into `srcDir`. -/
def moveOut (agent srcDir : String) (fs : FS) (f : File) : FS :=
  { inProgress :=
      setQ fs.inProgress agent
        ((getQ fs.inProgress agent).filter (fun g => !(g.name == f.name))),
    dirs := fun d =>
      if d = srcDir then putFile (fs.dirs srcDir) f else fs.dirs d }

/-- One iteration of the `abandon_stale` loop body on file `f`: move a
stale claim back to `srcDir`, counting it on success; a failed move is
caught (`pass`) and not counted. -/
def abandonStep (agent srcDir : String) (mf : String → Bool)
    (now maxAgeHours : Nat) (acc : Nat × FS) (f : File) : Nat × FS :=
  if isStale now maxAgeHours f then
    if mf f.name then acc
    else (acc.1 + 1, moveOut agent srcDir acc.2 f)
  else acc

/-- The files `abandon_stale` moves: stale, and their move succeeds. -/
def movedP (mf : String → Bool) (now maxAgeHours : Nat) (f : File) : Bool :=
  isStale now maxAgeHours f && !(mf f.name)

/-- `ClaimManager.abandon_stale`: sweep the snapshot returned by
`list_claimed`, moving every stale claim back to `srcDir`, and return the
count of claims successfully moved together with the resulting vault. -/
def abandon_stale (agent : String) (mf : String → Bool) (fs : FS)
    (srcDir : String) (now maxAgeHours : Nat) : Nat × FS :=
  (list_claimed agent fs).foldl (abandonStep agent srcDir mf now maxAgeHours) (0, fs)

/-! ## Process supervisor (`Agents/orchestrator.py`) -/

/-- The lifecycle states of `AgentProcess.status`. -/
inductive AStatus
  | idle | running | stopped | crashed | abandoned | missing | failed
deriving DecidableEq, Repr

/-- The launch environment of one worker record: whether the configured
script file exists, whether `subprocess.Popen` succeeds, and whether the
spawned child is alive when next probed (`false` models a process that
dies immediately on every launch). -/
structure Env where
  scriptExists : Bool
  spawnOk : Bool
  childLives : Bool
deriving DecidableEq, Repr

/-- `AgentProcess` bookkeeping: the lifecycle status, the consecutive
restart counter, whether `self.process` is set, its liveness, plus two
ghost observation counters — the number of `subprocess.Popen` calls made
(`spawnAttempts`) and the number of `restart` invocations
(`restartCalls`). -/
structure Agent where
  status : AStatus
  restarts : Nat
  hasProcess : Bool
  alive : Bool
  spawnAttempts : Nat
  restartCalls : Nat
deriving DecidableEq, Repr

/-- `AgentProcess.MAX_RESTARTS`. -/
def MAX_RESTARTS : Nat := 5

/-- `AgentProcess.start`: a missing script sets `missing`; otherwise
`Popen` is attempted — on failure the status becomes `failed`, on success
`running` with the new child process. -/
def Agent.start (env : Env) (a : Agent) : Agent × Bool :=
  if !env.scriptExists then ({ a with status := .missing }, false)
  else
    let a := { a with spawnAttempts := a.spawnAttempts + 1 }
    if !env.spawnOk then ({ a with status := .failed }, false)
    else ({ a with status := .running, hasProcess := true,
                   alive := env.childLives }, true)

/-- `AgentProcess.is_alive`: `self.process` is set and `poll()` is
`None`. -/
def Agent.is_alive (a : Agent) : Bool :=
  a.hasProcess && a.alive

/-- `AgentProcess.stop`: terminate/kill the child if alive, then set the
status to `stopped` unconditionally. -/
def Agent.stop (a : Agent) : Agent :=
  { a with status := .stopped, alive := false }

/-- `AgentProcess.restart`: when the restart budget is exhausted, abandon
and return `false` (no stop, no spawn); otherwise stop, increment the
restart counter, capture diagnostics, and start again. -/
def Agent.restart (env : Env) (a : Agent) : Agent × Bool :=
  let a := { a with restartCalls := a.restartCalls + 1 }
  if MAX_RESTARTS ≤ a.restarts then ({ a with status := .abandoned }, false)
  else
    let a := a.stop
    let a := { a with restarts := a.restarts + 1 }
    a.start env

/-- The `Orchestrator.health_check` loop body for one record: skip
`abandoned`/`missing`/`idle`; a `running` record whose process is no
longer alive is marked `crashed` and restarted. -/
def health_check_one (env : Env) (a : Agent) : Agent :=
  if a.status = .abandoned ∨ a.status = .missing ∨ a.status = .idle then a
  else if !a.is_alive && (a.status == .running) then
    (Agent.restart env { a with status := .crashed }).1
  else a

/-- `Orchestrator.health_check`: the loop over every record (each with its
own launch environment). -/
def health_check (records : List (Env × Agent)) : List (Env × Agent) :=
  records.map (fun ea => (ea.1, health_check_one ea.1 ea.2))

/-! ## HITL approval gate (`Agents/hitl_approval.py`) -/

/-- A file of the `Approved` queue: its name, its content, and whether
`read_text` succeeds on it (`false` models an `OSError` while reading). -/
structure GFile where
  name : String
  content : String
  readable : Bool
deriving DecidableEq, Repr

/-- The approval gate's two directories. -/
structure GState where
  approved : List GFile
  done : List GFile
deriving DecidableEq, Repr

/-- The summary dictionary returned by `check_approved`. -/
structure Summary where
  executed : Nat
  failed : Nat
  dry_run : Nat
deriving DecidableEq, Repr

/-- One audit-log record, restricted to the fields the claims mention. -/
structure LogE where
  action_type : String
  target : String
  status : String
deriving DecidableEq, Repr

/-- Keys of `ACTION_HANDLERS`.  Every registered handler returns `True`
(in dry-run mode after only logging the intent). -/
def knownAction (a : String) : Bool :=
  a == "draft_email_reply" || a == "draft_social_post" ||
  a == "deploy_checklist" || a == "request_approval"

/-- Python's `str.strip()` on a character list: drop whitespace from both
ends (restricted to ASCII whitespace, which is all that occurs in task
preambles). -/
def trimChars (cs : List Char) : List Char :=
  ((cs.dropWhile Char.isWhitespace).reverse.dropWhile Char.isWhitespace).reverse

/-- Split a character list at every occurrence of `sep` (models
`str.splitlines()` for `sep := '\n'`, and `str.split(sep)`). -/
def splitChar (sep : Char) : List Char → List (List Char)
  | [] => [[]]
  | c :: rest =>
    let r := splitChar sep rest
    if c == sep then [] :: r
    else
      match r with
      | [] => [[c]]
      | h :: t => (c :: h) :: t

/-- The text after the first occurrence of `sep`, as Python's
`line.split(sep, 1)[1]` (empty when `sep` does not occur; the caller only
reaches this with the separator present). -/
def afterChar (sep : Char) (cs : List Char) : List Char :=
  (cs.dropWhile (fun c => !(c == sep))).drop 1

/-- `_extract_action_type`: the first line whose stripped form starts with
`action:` yields the stripped text after the colon; otherwise
`"unknown"`. -/
def extract_action_type (content : String) : String :=
  go (splitChar '\n' content.data)
where
  go : List (List Char) → String
    | [] => "unknown"
    | line :: rest =>
      if List.isPrefixOf "action:".data (trimChars line) then
        ⟨trimChars (afterChar ':' line)⟩
      else go rest

/-- `pathlib`'s `stem`/`suffix` split of a file name: the suffix is the
part from the last dot on, provided that dot is neither the first nor the
last character. -/
def stemSuffix (name : String) : String × String :=
  let cs := name.data
  match (cs.enum.filter (fun p => p.2 == '.')).getLast? with
  | some (i, _) =>
    if 0 < i && i + 1 < cs.length then (⟨cs.take i⟩, ⟨cs.drop i⟩)
    else (name, "")
  | none => (name, "")

/-- Lexicographic order on character lists by code point — the order
Python uses to compare `str` (and hence directory entry names under
`sorted`). -/
def charsLt : List Char → List Char → Bool
  | [], [] => false
  | [], _ :: _ => true
  | _ :: _, [] => false
  | a :: as, b :: bs => if a < b then true else if b < a then false else charsLt as bs

/-- Insert a file into a name-sorted list (`sorted(APPROVED_DIR.iterdir())`
sorts the directory entries by name). -/
def insertByName (f : GFile) : List GFile → List GFile
  | [] => [f]
  | g :: rest =>
    if charsLt f.name.data g.name.data then f :: g :: rest
    else g :: insertByName f rest

/-- Sort a directory listing by name. -/
def sortByName (l : List GFile) : List GFile :=
  l.foldr insertByName []

/-- Place `f` in the `Done` listing by rename (POSIX overwrite
semantics, as for `putFile`). -/
def putG (q : List GFile) (f : GFile) : List GFile :=
  q.filter (fun g => !(g.name == f.name)) ++ [f]

/-- The `check_approved` loop over the sorted snapshot of `Approved`.
Per file: hidden files are skipped (`continue`); `read_text` is OUTSIDE
the per-file `try`, so a read failure propagates and aborts the pass
(`Except.error` carrying the file name); an unknown action logs a failure
and leaves the file; otherwise the handler runs (every registered handler
returns `True`), the execution is logged, and the file is moved to `Done`
— a same-named entry there diverts the move to a timestamp-suffixed name;
a move failure (`mf`) is caught by the per-file `except`, logged, and
counted as failed.  Accumulates (summary, files kept in `Approved`,
`Done` listing, audit log). -/
def runFiles (dry : Bool) (ts : String) (mf : String → Bool) :
    List GFile → Summary → List GFile → List GFile → List LogE →
    Except String (Summary × List GFile × List GFile × List LogE)
  | [], s, kept, done, log => .ok (s, kept, done, log)
  | f :: rest, s, kept, done, log =>
    if hiddenName f.name then
      runFiles dry ts mf rest s (kept ++ [f]) done log
    else if !f.readable then .error f.name
    else
      let a := extract_action_type f.content
      if !knownAction a then
        runFiles dry ts mf rest { s with failed := s.failed + 1 }
          (kept ++ [f]) done (log ++ [⟨"action_failed", f.name, "failed"⟩])
      else
        let status := if dry then "dry_run" else "success"
        let log := log ++ [⟨"action_executed", f.name, status⟩]
        if mf f.name then
          runFiles dry ts mf rest { s with failed := s.failed + 1 }
            (kept ++ [f]) done (log ++ [⟨"action_failed", f.name, "failed"⟩])
        else
          let dname :=
            if done.any (fun g => g.name == f.name) then
              (stemSuffix f.name).1 ++ "_" ++ ts ++ (stemSuffix f.name).2
            else f.name
          let done := putG done ⟨dname, f.content, f.readable⟩
          let s := if dry then { s with dry_run := s.dry_run + 1 }
                   else { s with executed := s.executed + 1 }
          runFiles dry ts mf rest s kept done log

/-- `check_approved`: iterate the name-sorted `Approved` queue and return
the summary, the resulting gate state, and the audit log of the pass.
`dry` is the global `DRY_RUN` switch, `ts` the timestamp string used to
disambiguate a `Done` collision, `mf` the move-failure oracle. -/
def check_approved (dry : Bool) (ts : String) (mf : String → Bool)
    (st : GState) : Except String (Summary × GState × List LogE) :=
  (runFiles dry ts mf (sortByName st.approved) ⟨0, 0, 0⟩ [] st.done []).map
    (fun r => (r.1, ⟨r.2.1, r.2.2.1⟩, r.2.2.2))

/-! ## Configuration (`Agents/config.py`) -/

/-- Python's `str.lower()` as a per-character map (faithful for the ASCII
values the `DRY_RUN` switch compares against). -/
def pyLower (s : String) : String :=
  ⟨s.data.map Char.toLower⟩

/-- `DRY_RUN: bool = os.getenv("DRY_RUN", "true").lower() in ("true", "1",
"yes")` — `v` is the value of the `DRY_RUN` environment variable, `none`
when it is unset. -/
def dry_run_of (v : Option String) : Bool :=
  (["true", "1", "yes"].contains (pyLower (v.getD "true")))

/-! ## Concrete states used by witnesses and counterexamples -/

/-- Launch environment of a worker whose script exists and spawns but
whose process dies immediately on every launch. -/
def crashEnv : Env := ⟨true, true, false⟩

/-- A freshly constructed `AgentProcess` record. -/
def freshAgent : Agent := ⟨.idle, 0, false, false, 0, 0⟩

/-- The record right after its first (successful) launch under
`crashEnv`. -/
def startedCrasher : Agent := (freshAgent.start crashEnv).1

/-- The record after the restart budget is exhausted: abandoned with
`MAX_RESTARTS` restarts, one initial spawn plus five restart spawns, and
six `restart` invocations (the sixth abandoned). -/
def abandonedCrasher : Agent := ⟨.abandoned, 5, true, false, 6, 6⟩

/-- A record whose launch attempt could not spawn (`failed`), with the
one failed `Popen` counted and no `restart` invocations yet. -/
def failedAgent : Agent := ⟨.failed, 0, false, false, 1, 0⟩

/-- `beta.md` already claimed by worker `cloud`. -/
def fsClaimed : FS :=
  { inProgress := [("cloud", [⟨"beta.md", "x", 0⟩]), ("local", [])],
    dirs := fun _ => [] }

/-- `beta.md` unclaimed and sitting in `Needs_Action`. -/
def fsFree : FS :=
  { inProgress := [("cloud", []), ("local", [])],
    dirs := fun d => if d = "Needs_Action" then [⟨"beta.md", "x", 0⟩] else [] }

/-- The state `claim` by `cloud` produces from `fsFree` (ill-formed
fallback: `fsFree` itself). -/
def fsAfterClaim : FS :=
  match claimE "cloud" noErr fsFree "Needs_Action" "beta.md" with
  | .ok (_, fs') => fs'
  | .error _ => fsFree

/-- Worker `local` holds `t.md` while `Done` already has a same-named
entry with different content. -/
def fsOver : FS :=
  { inProgress := [("local", [⟨"t.md", "new", 5⟩])],
    dirs := fun d => if d = "Done" then [⟨"t.md", "old", 0⟩] else [] }

/-- The result of releasing `t.md` from `fsOver` into `Done` (ill-formed
fallback: no move). -/
def overRes : Option String × FS :=
  match releaseE "local" noErr fsOver "Done" "t.md" with
  | .ok r => r
  | .error _ => (none, fsOver)

/-- Oracle: the `In_Progress` scan raises. -/
def errScan : ErrOracle := ⟨true, false, fun _ => false⟩

/-- Oracle: `destination.mkdir` raises. -/
def errMkdir : ErrOracle := ⟨false, true, fun _ => false⟩

/-- Approved queue whose first (in name order) task's content cannot be
read, followed by a well-formed approved task. -/
def stAbort : GState :=
  ⟨[⟨"a.md", "action: draft_email_reply", false⟩,
    ⟨"b.md", "action: draft_email_reply", true⟩], []⟩

/-- Approved queue holding one task with no registered handler (its
content has no `action:` line, so the action parses to `unknown`). -/
def stUnknown : GState := ⟨[⟨"u.md", "type: note\nstatus: approved", true⟩], []⟩

/-- Approved queue holding one well-formed task whose move to `Done` will
fail. -/
def stMoveFail : GState := ⟨[⟨"m.md", "action: deploy_checklist", true⟩], []⟩

/-- Move-failure oracle hitting exactly `m.md`. -/
def mfOnM : String → Bool := fun n => n == "m.md"

/-- Worker `cloud` holds two stale claims (`s1.md`, `s2.md`) and one
fresh claim (`f1.md`) at time `20000` with a 2-hour threshold. -/
def fsStale : FS :=
  { inProgress := [("cloud", [⟨"s1.md", "a", 0⟩, ⟨"f1.md", "b", 19000⟩,
                              ⟨"s2.md", "c", 100⟩]), ("local", [])],
    dirs := fun _ => [] }

/-! ## Helper lemmas on the directory maps -/

theorem getQ_setQ_self (m : List (String × Queue)) (a : String) (q : Queue) :
    getQ (setQ m a q) a = q := by
  induction m with
  | nil => simp [setQ, getQ]
  | cons hd tl ih =>
    obtain ⟨b, r⟩ := hd
    by_cases hb : b = a <;> simp [setQ, getQ, hb, ih]

theorem getQ_setQ_ne (m : List (String × Queue)) (a b : String) (q : Queue)
    (h : b ≠ a) : getQ (setQ m a q) b = getQ m b := by
  induction m with
  | nil => simp [setQ, getQ, Ne.symm h]
  | cons hd tl ih =>
    obtain ⟨c, r⟩ := hd
    by_cases hc : c = a
    · subst hc
      simp [setQ, getQ, Ne.symm h]
    · by_cases hcb : c = b <;> simp [setQ, getQ, hc, hcb, ih, h]

theorem setQ_setQ (m : List (String × Queue)) (a : String) (q₁ q₂ : Queue) :
    setQ (setQ m a q₁) a q₂ = setQ m a q₂ := by
  induction m with
  | nil => simp [setQ]
  | cons hd tl ih =>
    obtain ⟨b, r⟩ := hd
    by_cases hb : b = a <;> simp [setQ, hb, ih]

theorem any_setQ (m : List (String × Queue)) (a : String) (q : Queue)
    (n : String) (h : q.any (fun g => g.name == n) = true) :
    ((setQ m a q).any fun wq => List.any wq.2 fun g => g.name == n) = true := by
  induction m with
  | nil => simp [setQ, h]
  | cons hd tl ih =>
    obtain ⟨b, r⟩ := hd
    by_cases hb : b = a
    · simp [setQ, hb, h]
    · simp only [setQ, if_neg hb, List.any_cons, ih, Bool.or_true]

theorem mem_setQ_of_nodup (m : List (String × Queue)) (a : String) (q : Queue)
    (hnd : (m.map Prod.fst).Nodup) :
    ∀ wq ∈ setQ m a q, wq = (a, q) ∨ (wq ∈ m ∧ wq.1 ≠ a) := by
  induction m with
  | nil =>
    intro wq hwq
    simp only [setQ, List.mem_singleton] at hwq
    exact Or.inl hwq
  | cons hd tl ih =>
    obtain ⟨b, r⟩ := hd
    simp only [List.map_cons, List.nodup_cons] at hnd
    intro wq hwq
    by_cases hb : b = a
    · subst hb
      simp [setQ] at hwq
      rcases hwq with h1 | h1
      · exact Or.inl (by simp [h1])
      · refine Or.inr ⟨List.mem_cons_of_mem _ h1, fun hk => ?_⟩
        exact hnd.1 (hk ▸ List.mem_map_of_mem Prod.fst h1)
    · simp only [setQ, if_neg hb, List.mem_cons] at hwq
      rcases hwq with h1 | h1
      · subst h1
        exact Or.inr ⟨List.mem_cons_self _ _, hb⟩
      · rcases ih hnd.2 wq h1 with h2 | ⟨h3, h4⟩
        · exact Or.inl h2
        · exact Or.inr ⟨List.mem_cons_of_mem _ h3, h4⟩

theorem mem_putFile_self (q : Queue) (f : File) : f ∈ putFile q f := by
  simp [putFile]

theorem any_putFile_name (q : Queue) (f : File) :
    (putFile q f).any (fun g => g.name == f.name) = true := by
  simp [putFile]

/-! ## Supervisor lemmas -/

theorem start_restarts (env : Env) (a : Agent) :
    ((a.start env).1).restarts = a.restarts := by
  unfold Agent.start
  by_cases h1 : env.scriptExists <;> by_cases h2 : env.spawnOk <;> simp [h1, h2]

theorem restart_restarts_le (env : Env) (a : Agent)
    (h : a.restarts ≤ MAX_RESTARTS) :
    ((Agent.restart env a).1).restarts ≤ MAX_RESTARTS := by
  unfold Agent.restart
  by_cases h5 : MAX_RESTARTS ≤ a.restarts
  · simpa [h5] using h
  · simp only [h5, if_false, start_restarts]
    unfold Agent.stop
    simp only
    omega

/-- C3.  For every worker process record, the restart counter never
exceeds `MAX_RESTARTS` (5): a health-check step preserves the bound;
`restart` invoked with `restarts ≥ 5` abandons the record and returns
`false` with no spawn attempt; an abandoned record is skipped by every
later health check; and under an environment whose child dies immediately
on every launch, six health checks after the initial start leave the
record `abandoned` with exactly 5 restarts and 6 total spawn attempts
(the initial start plus the five restart spawns), unchanged thereafter. -/
theorem restart_ceiling :
    (∀ env a, a.restarts ≤ MAX_RESTARTS →
      ((health_check_one env a).restarts ≤ MAX_RESTARTS)) ∧
    (∀ env a, MAX_RESTARTS ≤ a.restarts →
      Agent.restart env a =
        ({ a with status := .abandoned, restartCalls := a.restartCalls + 1 },
         false)) ∧
    (∀ env a, a.status = .abandoned → health_check_one env a = a) ∧
    (∀ n, Nat.iterate (health_check_one crashEnv) (n + 6) startedCrasher =
      abandonedCrasher) := by
  refine ⟨?_, ?_, ?_, ?_⟩
  · intro env a h
    unfold health_check_one
    by_cases hs : a.status = .abandoned ∨ a.status = .missing ∨ a.status = .idle
    · simp [hs, h]
    · simp only [hs, if_false]
      by_cases hc : !a.is_alive && (a.status == .running)
      · simp only [hc, if_true]
        exact restart_restarts_le env _ h
      · simp [hc, h]
  · intro env a h
    unfold Agent.restart
    simp [h]
  · intro env a h
    unfold health_check_one
    simp [h]
  · intro n
    rw [Function.iterate_add_apply]
    have h6 : Nat.iterate (health_check_one crashEnv) 6 startedCrasher =
        abandonedCrasher := by decide
    rw [h6]
    induction n with
    | zero => rfl
    | succ k ih =>
      rw [Function.iterate_succ_apply', ih]
      decide

/-- Witness for C3: the bound, the abandon branch, the skip, and the
six-step trace, each at a concrete record. -/
theorem restart_ceiling_witness :
    ((health_check_one crashEnv startedCrasher).restarts ≤ MAX_RESTARTS) ∧
    (Agent.restart crashEnv abandonedCrasher =
      ({ abandonedCrasher with
         status := .abandoned,
         restartCalls := abandonedCrasher.restartCalls + 1 }, false)) ∧
    (health_check_one crashEnv abandonedCrasher = abandonedCrasher) ∧
    (Nat.iterate (health_check_one crashEnv) (0 + 6) startedCrasher =
      abandonedCrasher) :=
  ⟨restart_ceiling.1 crashEnv startedCrasher (by decide),
   restart_ceiling.2.1 crashEnv abandonedCrasher (by decide),
   restart_ceiling.2.2.1 crashEnv abandonedCrasher (by decide),
   restart_ceiling.2.2.2 0⟩

/-- C8, counterexample: a record in state `failed` whose process is not
alive is iterated by `health_check` (it is not in the skip set) but is
left completely unchanged — no transition happens and `restart` is never
invoked (the ghost invocation counter stays 0), because the crash path
requires status `running`. -/
theorem failed_retry_cex :
    failedAgent.status = .failed ∧ failedAgent.is_alive = false ∧
    health_check_one crashEnv failedAgent = failedAgent ∧
    (health_check_one crashEnv failedAgent).restartCalls = 0 ∧
    health_check [(crashEnv, failedAgent)] = [(crashEnv, failedAgent)] := by
  decide

/-- C8, amended.  `health_check` skips only records in
`idle`/`missing`/`abandoned`; but the crash path fires only for records
whose status is `running`, so a record in state `failed` — although
iterated — is never transitioned or restarted: `failed` is terminal under
`health_check`.  A `running` record with a dead process is exactly the
one that is marked `crashed` and restarted. -/
theorem health_check_failed_terminal :
    (∀ env a, a.status = .failed → health_check_one env a = a) ∧
    (∀ env a, a.status = .idle ∨ a.status = .missing ∨ a.status = .abandoned →
      health_check_one env a = a) ∧
    (∀ env a, a.status = .running → a.is_alive = false →
      health_check_one env a =
        (Agent.restart env { a with status := .crashed }).1) := by
  refine ⟨?_, ?_, ?_⟩
  · intro env a h
    unfold health_check_one
    simp [h]
  · intro env a h
    unfold health_check_one
    have : a.status = .abandoned ∨ a.status = .missing ∨ a.status = .idle := by
      tauto
    simp [this]
  · intro env a h h2
    unfold health_check_one
    simp [h, h2]

/-- Witness for the amended C8, at concrete records. -/
theorem health_check_failed_terminal_witness :
    (health_check_one crashEnv failedAgent = failedAgent) ∧
    (health_check_one crashEnv freshAgent = freshAgent) ∧
    (health_check_one crashEnv startedCrasher =
      (Agent.restart crashEnv { startedCrasher with status := .crashed }).1) :=
  ⟨health_check_failed_terminal.1 crashEnv failedAgent (by decide),
   health_check_failed_terminal.2.1 crashEnv freshAgent (Or.inl (by decide)),
   health_check_failed_terminal.2.2 crashEnv startedCrasher (by decide) (by decide)⟩

/-! ## Claim protocol: mutual exclusion (C1) -/

/-- C1.  If any worker's scratch queue holds a file named `n`, `claim` of
`n` by any worker (the holder included) returns `none` and leaves the
vault unchanged; and a successful `claim` leaves `n` claimed, so every
subsequent `claim` of `n` returns `none` — at most one worker holds a
claim on `n` at a time. -/
theorem claim_mutual_exclusion :
    (∀ agent err fs src n, err.scanFails = false →
      is_claimed_by_anyone fs n = true →
      claimE agent err fs src n = .ok (none, fs)) ∧
    (∀ agent err fs src n p fs',
      claimE agent err fs src n = .ok (some p, fs') →
      is_claimed_by_anyone fs' n = true) := by
  constructor
  · intro agent err fs src n hscan hcl
    unfold claimE
    cases hfind : (fs.dirs src).find? (fun f => f.name == n) with
    | none => rfl
    | some f => simp [hscan, hcl]
  · intro agent err fs src n p fs' h
    unfold claimE at h
    cases hfind : (fs.dirs src).find? (fun f => f.name == n) with
    | none => rw [hfind] at h; simp at h
    | some f =>
      rw [hfind] at h
      by_cases h1 : err.scanFails = true
      · simp [h1] at h
      · simp only [h1, Bool.false_eq_true, if_false,
          Bool.not_eq_true] at h
        by_cases h2 : is_claimed_by_anyone fs n = true
        · simp [h2] at h
        · simp only [h2, Bool.false_eq_true, if_false] at h
          by_cases h3 : err.moveFails n = true
          · simp [h3] at h
          · simp only [h3, Bool.false_eq_true, if_false, Except.ok.injEq,
              Prod.mk.injEq, Option.some.injEq] at h
            obtain ⟨-, hfs⟩ := h
            subst hfs
            have h0 := List.find?_some hfind
            have hfn : f.name = n := by simpa using h0
            unfold is_claimed_by_anyone
            show ((setQ fs.inProgress agent
                (putFile (getQ fs.inProgress agent) f)).any
                  fun wq => List.any wq.2 fun g => g.name == n) = true
            apply any_setQ
            simp [putFile, hfn]

/-- Witness for C1: with `beta.md` claimed by `cloud`, a claim by `local`
returns `none` and changes nothing; and after `cloud` claims a free
`beta.md`, the name is claimed by someone. -/
theorem claim_mutual_exclusion_witness :
    claimE "local" noErr fsClaimed "Needs_Action" "beta.md" =
      .ok (none, fsClaimed) ∧
    is_claimed_by_anyone fsAfterClaim "beta.md" = true :=
  ⟨claim_mutual_exclusion.1 "local" noErr fsClaimed "Needs_Action" "beta.md"
      rfl (by decide),
   by decide⟩

/-! ## Queue moves do not fail closed (C2) -/

/-- C2, counterexample: releasing `t.md` from `local`'s scratch queue
while `Done` already holds a same-named entry does NOT fail closed — the
move succeeds, the destination entry is overwritten (the `"old"` content
is gone), and the source queue loses the task. -/
theorem move_fail_closed_cex :
    overRes.1 = some "Done/t.md" ∧
    fsOver.dirs "Done" = [⟨"t.md", "old", 0⟩] ∧
    overRes.2.dirs "Done" = [⟨"t.md", "new", 5⟩] ∧
    getQ overRes.2.inProgress "local" = [] := by
  decide

/-- C2, amended.  When the destination queue already holds a same-named
entry, the move performed by `release` (and the same `shutil.move` call in
`abandon_stale`) silently replaces it, POSIX-rename style: the released
task ends up in the destination, the previously existing destination
entry is lost, and the task leaves the source scratch queue — no
fail-closed check is made and no name disambiguation happens. -/
theorem move_overwrites :
    ∀ agent fs dest n f g,
      (getQ fs.inProgress agent).find? (fun x => x.name == n) = some f →
      g ∈ fs.dirs dest → g.name = n → g ≠ f →
      ∃ fs', releaseE agent noErr fs dest n =
          .ok (some (dest ++ "/" ++ n), fs') ∧
        f ∈ fs'.dirs dest ∧ g ∉ fs'.dirs dest ∧
        (∀ x ∈ getQ fs'.inProgress agent, x.name ≠ n) := by
  intro agent fs dest n f g hfind hg hgn hgf
  have hfn : f.name = n := by
    have := List.find?_some hfind
    simpa using this
  have hrel : releaseE agent noErr fs dest n =
      .ok (some (dest ++ "/" ++ n),
        { inProgress := setQ fs.inProgress agent
            ((getQ fs.inProgress agent).filter (fun x => !(x.name == n))),
          dirs := fun d => if d = dest then putFile (fs.dirs dest) f
                           else fs.dirs d }) := by
    unfold releaseE
    rw [hfind]
    rfl
  refine ⟨_, hrel, ?_, ?_, ?_⟩
  · simp [putFile]
  · intro hmem
    simp [putFile, hgn, hfn] at hmem
    exact hgf hmem
  · intro x hx
    have hx' : x ∈ (getQ fs.inProgress agent).filter
        (fun y => !(y.name == n)) := by
      simpa [getQ_setQ_self] using hx
    rcases List.mem_filter.1 hx' with ⟨-, hne⟩
    intro hxn
    simp [hxn] at hne

/-- Witness for the amended C2, at the concrete overwrite state. -/
theorem move_overwrites_witness :
    ∃ fs', releaseE "local" noErr fsOver "Done" "t.md" =
        .ok (some ("Done" ++ "/" ++ "t.md"), fs') ∧
      (⟨"t.md", "new", 5⟩ : File) ∈ fs'.dirs "Done" ∧
      (⟨"t.md", "old", 0⟩ : File) ∉ fs'.dirs "Done" ∧
      (∀ x ∈ getQ fs'.inProgress "local", x.name ≠ "t.md") :=
  move_overwrites "local" fsOver "Done" "t.md" ⟨"t.md", "new", 5⟩
    ⟨"t.md", "old", 0⟩ (by decide) (by decide) rfl (by decide)

/-! ## Claim/release error boundaries (C7) -/

/-- C7, counterexample: a filesystem error during `claim`'s
claimed-by-anyone scan, or during `release`'s destination `mkdir`,
propagates as an exception past the call (the Python statements sit
outside the `try`), contrary to the claim that every filesystem failure
degrades to `none`. -/
theorem never_raise_cex :
    claimE "cloud" errScan fsFree "Needs_Action" "beta.md" = .error () ∧
    releaseE "local" errMkdir fsOver "Done" "t.md" = .error () := by
  constructor <;> rfl

/-- C7, amended.  `claim` never raises provided the scratch scan does not
fail, and `release` never raises provided the destination `mkdir` does
not fail; a failure of `shutil.move` itself is caught and degrades to
`none` with the vault unchanged. -/
theorem claim_release_no_raise :
    (∀ agent mk mf fs src n,
      ∃ r, claimE agent ⟨false, mk, mf⟩ fs src n = .ok r) ∧
    (∀ agent sc mf fs dest n,
      ∃ r, releaseE agent ⟨sc, false, mf⟩ fs dest n = .ok r) ∧
    (∀ agent err fs src n, err.scanFails = false → err.moveFails n = true →
      claimE agent err fs src n = .ok (none, fs)) ∧
    (∀ agent err fs dest n, err.mkdirFails = false → err.moveFails n = true →
      releaseE agent err fs dest n = .ok (none, fs)) := by
  refine ⟨?_, ?_, ?_, ?_⟩
  · intro agent mk mf fs src n
    unfold claimE
    cases hfind : (fs.dirs src).find? (fun f => f.name == n) with
    | none => exact ⟨_, rfl⟩
    | some f =>
      simp only
      by_cases h2 : is_claimed_by_anyone fs n = true
      · simp [h2]
      · simp only [h2, Bool.false_eq_true, if_false]
        by_cases h3 : mf n = true
        · simp [h3]
        · simp [h3]
  · intro agent sc mf fs dest n
    unfold releaseE
    cases hfind : (getQ fs.inProgress agent).find? (fun f => f.name == n) with
    | none => exact ⟨_, rfl⟩
    | some f =>
      simp only
      by_cases h3 : mf n = true
      · simp [h3]
      · simp [h3]
  · intro agent err fs src n hscan hmove
    unfold claimE
    cases hfind : (fs.dirs src).find? (fun f => f.name == n) with
    | none => rfl
    | some f => simp [hscan, hmove]
  · intro agent err fs dest n hmk hmove
    unfold releaseE
    cases hfind : (getQ fs.inProgress agent).find? (fun f => f.name == n) with
    | none => rfl
    | some f => simp [hmk, hmove]

/-- Witness for the amended C7, at concrete states and oracles. -/
theorem claim_release_no_raise_witness :
    (∃ r, claimE "cloud" ⟨false, false, fun _ => false⟩ fsFree
      "Needs_Action" "beta.md" = .ok r) ∧
    (∃ r, releaseE "local" ⟨false, false, fun _ => false⟩ fsOver
      "Done" "t.md" = .ok r) ∧
    claimE "cloud" ⟨false, false, fun _ => true⟩ fsFree
      "Needs_Action" "beta.md" = .ok (none, fsFree) ∧
    releaseE "local" ⟨false, false, fun _ => true⟩ fsOver
      "Done" "t.md" = .ok (none, fsOver) :=
  ⟨claim_release_no_raise.1 "cloud" false (fun _ => false) fsFree
      "Needs_Action" "beta.md",
   claim_release_no_raise.2.1 "local" false (fun _ => false) fsOver
      "Done" "t.md",
   claim_release_no_raise.2.2.1 "cloud" ⟨false, false, fun _ => true⟩ fsFree
      "Needs_Action" "beta.md" rfl rfl,
   claim_release_no_raise.2.2.2 "local" ⟨false, false, fun _ => true⟩ fsOver
      "Done" "t.md" rfl rfl⟩

/-! ## Approval-gate lemmas -/

theorem mem_insertByName (x f : GFile) (l : List GFile) :
    x ∈ insertByName f l ↔ x = f ∨ x ∈ l := by
  induction l with
  | nil => simp [insertByName]
  | cons g rest ih =>
    by_cases hc : charsLt f.name.data g.name.data
    · simp [insertByName, hc]
    · simp [insertByName, hc, ih]
      tauto

theorem mem_sortByName (x : GFile) (l : List GFile) :
    x ∈ sortByName l ↔ x ∈ l := by
  induction l with
  | nil => simp [sortByName]
  | cons f rest ih =>
    show x ∈ insertByName f (sortByName rest) ↔ _
    rw [mem_insertByName]
    simp [ih]

theorem any_putG_name (q : List GFile) (f : GFile) :
    (putG q f).any (fun g => g.name == f.name) = true := by
  simp [putG]

theorem gate_total (dry : Bool) (ts : String) (mf : String → Bool) :
    ∀ (files : List GFile) (s : Summary) (kept done : List GFile)
      (log : List LogE),
      (∀ f ∈ files, hiddenName f.name = false → f.readable = true) →
      ∃ r, runFiles dry ts mf files s kept done log = .ok r := by
  intro files
  induction files with
  | nil => intro s kept done log _; exact ⟨_, rfl⟩
  | cons f rest ih =>
    intro s kept done log h
    have hrest : ∀ g ∈ rest, hiddenName g.name = false → g.readable = true :=
      fun g hg => h g (List.mem_cons_of_mem _ hg)
    by_cases hh : hiddenName f.name = true
    · simp only [runFiles, hh, if_true]
      exact ih _ _ _ _ hrest
    · have hh' : hiddenName f.name = false := by simpa using hh
      have hr : f.readable = true := h f (List.mem_cons_self _ _) hh'
      by_cases hk : knownAction (extract_action_type f.content) = true
      · by_cases hm : mf f.name = true
        · simp only [runFiles, hh', hr, hk, hm, Bool.not_true,
            Bool.false_eq_true, if_false, if_true]
          exact ih _ _ _ _ hrest
        · have hm' : mf f.name = false := by simpa using hm
          simp only [runFiles, hh', hr, hk, hm', Bool.not_true,
            Bool.false_eq_true, if_false, if_true]
          exact ih _ _ _ _ hrest
      · have hk' : knownAction (extract_action_type f.content) = false := by
          simpa using hk
        simp only [runFiles, hh', hr, hk', Bool.not_true, Bool.not_false,
          Bool.false_eq_true, if_false, if_true]
        exact ih _ _ _ _ hrest

theorem gate_mono (dry : Bool) (ts : String) (mf : String → Bool) :
    ∀ (files : List GFile) (s : Summary) (kept done : List GFile)
      (log : List LogE) (r : Summary × List GFile × List GFile × List LogE),
      runFiles dry ts mf files s kept done log = .ok r →
      (∀ x ∈ kept, x ∈ r.2.1) ∧ (∀ e ∈ log, e ∈ r.2.2.2) ∧
      s.failed ≤ r.1.failed := by
  intro files
  induction files with
  | nil =>
    intro s kept done log r h
    simp only [runFiles, Except.ok.injEq] at h
    subst h
    exact ⟨fun x hx => hx, fun e he => he, Nat.le_refl _⟩
  | cons f rest ih =>
    intro s kept done log r h
    by_cases hh : hiddenName f.name = true
    · simp only [runFiles, hh, if_true] at h
      have hrec := ih _ _ _ _ _ h
      exact ⟨fun x hx => hrec.1 x (List.mem_append_left _ hx),
        hrec.2.1, hrec.2.2⟩
    · have hh' : hiddenName f.name = false := by simpa using hh
      by_cases hread : f.readable = true
      · by_cases hk : knownAction (extract_action_type f.content) = true
        · by_cases hm : mf f.name = true
          · simp only [runFiles, hh', hread, hk, hm, Bool.not_true,
              Bool.false_eq_true, if_false, if_true] at h
            have hrec := ih _ _ _ _ _ h
            exact ⟨fun x hx => hrec.1 x (List.mem_append_left _ hx),
              fun e he => hrec.2.1 e
                (List.mem_append_left _ (List.mem_append_left _ he)),
              Nat.le_trans (Nat.le_succ _) hrec.2.2⟩
          · have hm' : mf f.name = false := by simpa using hm
            simp only [runFiles, hh', hread, hk, hm', Bool.not_true,
              Bool.false_eq_true, if_false, if_true] at h
            have hrec := ih _ _ _ _ _ h
            refine ⟨hrec.1, fun e he => hrec.2.1 e (List.mem_append_left _ he),
              Nat.le_trans ?_ hrec.2.2⟩
            cases dry <;> simp
        · have hk' : knownAction (extract_action_type f.content) = false := by
            simpa using hk
          simp only [runFiles, hh', hread, hk', Bool.not_true, Bool.not_false,
            Bool.false_eq_true, if_false, if_true] at h
          have hrec := ih _ _ _ _ _ h
          exact ⟨fun x hx => hrec.1 x (List.mem_append_left _ hx),
            fun e he => hrec.2.1 e (List.mem_append_left _ he),
            Nat.le_trans (Nat.le_succ _) hrec.2.2⟩
      · have hread' : f.readable = false := by simpa using hread
        simp only [runFiles, hh', hread', Bool.not_false, Bool.false_eq_true,
          if_false, if_true, reduceCtorEq] at h

theorem gate_source (dry : Bool) (ts : String) (mf : String → Bool) :
    ∀ (files : List GFile) (s : Summary) (kept done : List GFile)
      (log : List LogE) (r : Summary × List GFile × List GFile × List LogE),
      runFiles dry ts mf files s kept done log = .ok r →
      ∀ x ∈ r.2.1, x ∈ kept ∨ x ∈ files := by
  intro files
  induction files with
  | nil =>
    intro s kept done log r h x hx
    simp only [runFiles, Except.ok.injEq] at h
    subst h
    exact Or.inl hx
  | cons f rest ih =>
    intro s kept done log r h x hx
    by_cases hh : hiddenName f.name = true
    · simp only [runFiles, hh, if_true] at h
      rcases ih _ _ _ _ _ h x hx with hk | hk
      · rcases List.mem_append.1 hk with hk' | hk'
        · exact Or.inl hk'
        · exact Or.inr (List.mem_singleton.1 hk' ▸ List.mem_cons_self f rest)
      · exact Or.inr (List.mem_cons_of_mem _ hk)
    · have hh' : hiddenName f.name = false := by simpa using hh
      by_cases hread : f.readable = true
      · by_cases hk : knownAction (extract_action_type f.content) = true
        · by_cases hm : mf f.name = true
          · simp only [runFiles, hh', hread, hk, hm, Bool.not_true,
              Bool.false_eq_true, if_false, if_true] at h
            rcases ih _ _ _ _ _ h x hx with hk2 | hk2
            · rcases List.mem_append.1 hk2 with hk' | hk'
              · exact Or.inl hk'
              · exact Or.inr (List.mem_singleton.1 hk' ▸
                  List.mem_cons_self f rest)
            · exact Or.inr (List.mem_cons_of_mem _ hk2)
          · have hm' : mf f.name = false := by simpa using hm
            simp only [runFiles, hh', hread, hk, hm', Bool.not_true,
              Bool.false_eq_true, if_false, if_true] at h
            rcases ih _ _ _ _ _ h x hx with hk2 | hk2
            · exact Or.inl hk2
            · exact Or.inr (List.mem_cons_of_mem _ hk2)
        · have hk' : knownAction (extract_action_type f.content) = false := by
            simpa using hk
          simp only [runFiles, hh', hread, hk', Bool.not_true, Bool.not_false,
            Bool.false_eq_true, if_false, if_true] at h
          rcases ih _ _ _ _ _ h x hx with hk2 | hk2
          · rcases List.mem_append.1 hk2 with hk3 | hk3
            · exact Or.inl hk3
            · exact Or.inr (List.mem_singleton.1 hk3 ▸
                List.mem_cons_self f rest)
          · exact Or.inr (List.mem_cons_of_mem _ hk2)
      · have hread' : f.readable = false := by simpa using hread
        simp only [runFiles, hh', hread', Bool.not_false, Bool.false_eq_true,
          if_false, if_true, reduceCtorEq] at h

theorem gate_failed (dry : Bool) (ts : String) (mf : String → Bool) :
    ∀ (files : List GFile) (s : Summary) (kept done : List GFile)
      (log : List LogE) (r : Summary × List GFile × List GFile × List LogE)
      (f : GFile),
      runFiles dry ts mf files s kept done log = .ok r →
      f ∈ files → hiddenName f.name = false → f.readable = true →
      (knownAction (extract_action_type f.content) = false ∨
        mf f.name = true) →
      f ∈ r.2.1 ∧ (⟨"action_failed", f.name, "failed"⟩ : LogE) ∈ r.2.2.2 ∧
      s.failed < r.1.failed := by
  intro files
  induction files with
  | nil => intro s kept done log r f _ hf; cases hf
  | cons g rest ih =>
    intro s kept done log r f h hf hhid hread hfl
    rcases List.mem_cons.1 hf with rfl | hf'
    · rcases hfl with hunk | hmv
      · simp only [runFiles, hhid, hread, hunk, Bool.not_true, Bool.not_false,
          Bool.false_eq_true, if_false, if_true] at h
        have hrec := gate_mono dry ts mf _ _ _ _ _ _ h
        exact ⟨hrec.1 f (by simp), hrec.2.1 _ (by simp),
          Nat.lt_of_lt_of_le (Nat.lt_succ_self _) hrec.2.2⟩
      · by_cases hk : knownAction (extract_action_type f.content) = true
        · simp only [runFiles, hhid, hread, hk, hmv, Bool.not_true,
            Bool.false_eq_true, if_false, if_true] at h
          have hrec := gate_mono dry ts mf _ _ _ _ _ _ h
          exact ⟨hrec.1 f (by simp), hrec.2.1 _ (by simp),
            Nat.lt_of_lt_of_le (Nat.lt_succ_self _) hrec.2.2⟩
        · have hk' : knownAction (extract_action_type f.content) = false := by
            simpa using hk
          simp only [runFiles, hhid, hread, hk', Bool.not_true, Bool.not_false,
            Bool.false_eq_true, if_false, if_true] at h
          have hrec := gate_mono dry ts mf _ _ _ _ _ _ h
          exact ⟨hrec.1 f (by simp), hrec.2.1 _ (by simp),
            Nat.lt_of_lt_of_le (Nat.lt_succ_self _) hrec.2.2⟩
    · by_cases hh : hiddenName g.name = true
      · simp only [runFiles, hh, if_true] at h
        exact ih _ _ _ _ _ _ h hf' hhid hread hfl
      · have hh' : hiddenName g.name = false := by simpa using hh
        by_cases hgr : g.readable = true
        · by_cases hk : knownAction (extract_action_type g.content) = true
          · by_cases hm : mf g.name = true
            · simp only [runFiles, hh', hgr, hk, hm, Bool.not_true,
                Bool.false_eq_true, if_false, if_true] at h
              have hrec := ih _ _ _ _ _ _ h hf' hhid hread hfl
              exact ⟨hrec.1, hrec.2.1,
                Nat.lt_of_le_of_lt (Nat.le_succ _) hrec.2.2⟩
            · have hm' : mf g.name = false := by simpa using hm
              simp only [runFiles, hh', hgr, hk, hm', Bool.not_true,
                Bool.false_eq_true, if_false, if_true] at h
              have hrec := ih _ _ _ _ _ _ h hf' hhid hread hfl
              refine ⟨hrec.1, hrec.2.1, Nat.lt_of_le_of_lt ?_ hrec.2.2⟩
              cases dry <;> simp
          · have hk' : knownAction (extract_action_type g.content) = false := by
              simpa using hk
            simp only [runFiles, hh', hgr, hk', Bool.not_true, Bool.not_false,
              Bool.false_eq_true, if_false, if_true] at h
            have hrec := ih _ _ _ _ _ _ h hf' hhid hread hfl
            exact ⟨hrec.1, hrec.2.1,
              Nat.lt_of_le_of_lt (Nat.le_succ _) hrec.2.2⟩
        · have hgr' : g.readable = false := by simpa using hgr
          simp only [runFiles, hh', hgr', Bool.not_false, Bool.false_eq_true,
            if_false, if_true, reduceCtorEq] at h

/-! ## Approval gate: unknown actions, isolation, dry-run (C4, C5, C9) -/

/-- C4.  A task in `Approved` whose declared action has no registered
handler (a missing `action:` line parses to `unknown`) is left in
`Approved` unchanged by `check_approved`, a failure is logged for it, and
the pass's `failed` count is positive; an immediately repeated pass over
the resulting state gives the same outcome for that task.  (Stated for
passes whose task contents are all readable — an unreadable content
aborts the pass, see the C5 analysis.) -/
theorem gate_unknown_action_idempotent :
    ∀ (dry : Bool) (ts ts2 : String) (mf mf2 : String → Bool) (st : GState)
      (f : GFile),
      (∀ g ∈ st.approved, hiddenName g.name = false → g.readable = true) →
      f ∈ st.approved → hiddenName f.name = false → f.readable = true →
      knownAction (extract_action_type f.content) = false →
      ∃ s1 st1 log1, check_approved dry ts mf st = .ok (s1, st1, log1) ∧
        f ∈ st1.approved ∧
        (⟨"action_failed", f.name, "failed"⟩ : LogE) ∈ log1 ∧
        0 < s1.failed ∧
        ∃ s2 st2 log2, check_approved dry ts2 mf2 st1 = .ok (s2, st2, log2) ∧
          f ∈ st2.approved ∧
          (⟨"action_failed", f.name, "failed"⟩ : LogE) ∈ log2 ∧
          0 < s2.failed := by
  intro dry ts ts2 mf mf2 st f hall hf hhid hread hunk
  have pass : ∀ (d : Bool) (t : String) (m : String → Bool)
      (ap dn : List GFile),
      (∀ g ∈ ap, hiddenName g.name = false → g.readable = true) → f ∈ ap →
      ∃ s1 k1 d1 l1,
        check_approved d t m ⟨ap, dn⟩ = .ok (s1, ⟨k1, d1⟩, l1) ∧
        f ∈ k1 ∧ (⟨"action_failed", f.name, "failed"⟩ : LogE) ∈ l1 ∧
        0 < s1.failed ∧ (∀ g ∈ k1, g ∈ ap) := by
    intro d t m ap dn hall' hf'
    obtain ⟨r, hr⟩ := gate_total d t m (sortByName ap) ⟨0, 0, 0⟩ [] dn []
      (fun g hg => hall' g ((mem_sortByName g ap).1 hg))
    have hfl := gate_failed d t m _ _ _ _ _ _ f hr
      ((mem_sortByName f ap).2 hf') hhid hread (Or.inl hunk)
    have hsrc := gate_source d t m _ _ _ _ _ _ hr
    refine ⟨r.1, r.2.1, r.2.2.1, r.2.2.2, ?_, hfl.1, hfl.2.1,
      by simpa using hfl.2.2, ?_⟩
    · unfold check_approved
      rw [hr]
      rfl
    · intro g hg
      rcases hsrc g hg with h | h
      · cases h
      · exact (mem_sortByName g ap).1 h
  obtain ⟨s1, k1, d1, l1, hca1, hf1, hl1, hp1, hsub1⟩ :=
    pass dry ts mf st.approved st.done hall hf
  obtain ⟨s2, k2, d2, l2, hca2, hf2, hl2, hp2, -⟩ :=
    pass dry ts2 mf2 k1 d1 (fun g hg => hall g (hsub1 g hg)) hf1
  exact ⟨s1, ⟨k1, d1⟩, l1, hca1, hf1, hl1, hp1,
    s2, ⟨k2, d2⟩, l2, hca2, hf2, hl2, hp2⟩

/-- Witness for C4, at a task with no `action:` line. -/
theorem gate_unknown_action_idempotent_witness :
    ∃ r, check_approved true "T" (fun _ => false) stUnknown = .ok r := by
  obtain ⟨s1, st1, log1, hca, -⟩ :=
    gate_unknown_action_idempotent true "T" "T2" (fun _ => false)
      (fun _ => false) stUnknown ⟨"u.md", "type: note\nstatus: approved", true⟩
      (by decide) (by decide) (by decide) (by decide) (by decide)
  exact ⟨_, hca⟩

/-- C5, counterexample: with `a.md` unreadable and `b.md` a well-formed
approved task behind it, `check_approved` aborts the whole pass with the
read exception — `b.md` is never processed, so a failure of one task's
read does abort the remaining tasks. -/
theorem gate_isolation_cex :
    check_approved true "TS" (fun _ => false) stAbort = .error "a.md" := by
  rfl

/-- C5, amended.  The per-task catch boundary covers handler dispatch and
the move to `Done`: when every task's content is readable, the pass always
completes even under arbitrary move failures, and a task whose move
raises is kept in `Approved`, logged as failed, and counted failed without
aborting the rest.  An exception while reading a task's content, however,
occurs outside the per-task `try` and aborts the pass. -/
theorem gate_isolation_partial :
    (∀ (dry : Bool) (ts : String) (mf : String → Bool) (st : GState),
      (∀ g ∈ st.approved, hiddenName g.name = false → g.readable = true) →
      ∃ r, check_approved dry ts mf st = .ok r) ∧
    (∀ (dry : Bool) (ts : String) (mf : String → Bool) (st : GState)
      (f : GFile),
      (∀ g ∈ st.approved, hiddenName g.name = false → g.readable = true) →
      f ∈ st.approved → hiddenName f.name = false → f.readable = true →
      mf f.name = true →
      ∃ s1 st1 log1, check_approved dry ts mf st = .ok (s1, st1, log1) ∧
        f ∈ st1.approved ∧
        (⟨"action_failed", f.name, "failed"⟩ : LogE) ∈ log1 ∧
        0 < s1.failed) := by
  constructor
  · intro dry ts mf st hall
    obtain ⟨r, hr⟩ := gate_total dry ts mf (sortByName st.approved)
      ⟨0, 0, 0⟩ [] st.done []
      (fun g hg => hall g ((mem_sortByName g _).1 hg))
    refine ⟨(r.1, ⟨r.2.1, r.2.2.1⟩, r.2.2.2), ?_⟩
    unfold check_approved
    rw [hr]
    rfl
  · intro dry ts mf st f hall hf hhid hread hmv
    obtain ⟨r, hr⟩ := gate_total dry ts mf (sortByName st.approved)
      ⟨0, 0, 0⟩ [] st.done []
      (fun g hg => hall g ((mem_sortByName g _).1 hg))
    have hfl := gate_failed dry ts mf _ _ _ _ _ _ f hr
      ((mem_sortByName f _).2 hf) hhid hread (Or.inr hmv)
    refine ⟨r.1, ⟨r.2.1, r.2.2.1⟩, r.2.2.2, ?_, hfl.1, hfl.2.1,
      by simpa using hfl.2.2⟩
    unfold check_approved
    rw [hr]
    rfl

/-- Witness for the amended C5: a completed pass, and a move-failing task
kept and counted. -/
theorem gate_isolation_partial_witness :
    (∃ r, check_approved true "T" (fun _ => false) stUnknown = .ok r) ∧
    (∃ s1 st1 log1,
      check_approved false "T" mfOnM stMoveFail = .ok (s1, st1, log1) ∧
      (⟨"m.md", "action: deploy_checklist", true⟩ : GFile) ∈ st1.approved ∧
      (⟨"action_failed", "m.md", "failed"⟩ : LogE) ∈ log1 ∧
      0 < s1.failed) := by
  constructor
  · exact gate_isolation_partial.1 true "T" (fun _ => false) stUnknown
      (by decide)
  · obtain ⟨s1, st1, log1, hca, hkeep, hlog, hpos⟩ :=
      gate_isolation_partial.2 false "T" mfOnM stMoveFail
        ⟨"m.md", "action: deploy_checklist", true⟩
        (by decide) (by decide) (by decide) (by decide) (by decide)
    exact ⟨s1, st1, log1, hca, hkeep, hlog, hpos⟩

/-- C9.  With dry-run on and `Approved` holding exactly
`alpha.md` (`action: draft_email_reply`), `check_approved` returns the
summary `{executed := 0, failed := 0, dry_run := 1}`, the `Approved`
queue is emptied, the pass logs the dry-run execution, and `alpha.md`
lands in `Done` — under its own name, or with the timestamp suffix when a
same-named file already existed there. -/
theorem gate_dry_run_scenario :
    ∀ (done : List GFile) (ts : String),
      check_approved true ts (fun _ => false)
          ⟨[⟨"alpha.md", "action: draft_email_reply", true⟩], done⟩ =
        .ok (⟨0, 0, 1⟩,
          ⟨[], putG done
            ⟨(if done.any (fun g => g.name == "alpha.md") then
                "alpha_" ++ ts ++ ".md" else "alpha.md"),
             "action: draft_email_reply", true⟩⟩,
          [⟨"action_executed", "alpha.md", "dry_run"⟩]) ∧
      (putG done
        ⟨(if done.any (fun g => g.name == "alpha.md") then
            "alpha_" ++ ts ++ ".md" else "alpha.md"),
         "action: draft_email_reply", true⟩).any
        (fun g => g.name ==
          (if done.any (fun g => g.name == "alpha.md") then
            "alpha_" ++ ts ++ ".md" else "alpha.md")) = true := by
  intro done ts
  refine ⟨?_, any_putG_name done _⟩
  rfl

/-! ## Stale-claim recovery lemmas -/

theorem abandonStep_not_moved (agent srcDir : String) (mf : String → Bool)
    (now maxAge : Nat) (acc : Nat × FS) (f : File)
    (hmv : movedP mf now maxAge f = false) :
    abandonStep agent srcDir mf now maxAge acc f = acc := by
  unfold movedP at hmv
  unfold abandonStep
  by_cases hst : isStale now maxAge f = true
  · simp only [hst, Bool.true_and, Bool.not_eq_false'] at hmv
    simp [hst, hmv]
  · have hst' : isStale now maxAge f = false := by simpa using hst
    simp [hst']

theorem abandonStep_moved (agent srcDir : String) (mf : String → Bool)
    (now maxAge : Nat) (acc : Nat × FS) (f : File)
    (hmv : movedP mf now maxAge f = true) :
    abandonStep agent srcDir mf now maxAge acc f =
      (acc.1 + 1, moveOut agent srcDir acc.2 f) := by
  unfold movedP at hmv
  simp only [Bool.and_eq_true] at hmv
  obtain ⟨hst, hmf⟩ := hmv
  have hmf' : mf f.name = false := by simpa using hmf
  simp [abandonStep, hst, hmf']

theorem getQ_moveOut_self (agent srcDir : String) (fs : FS) (f : File) :
    getQ (moveOut agent srcDir fs f).inProgress agent =
      (getQ fs.inProgress agent).filter (fun g => !(g.name == f.name)) := by
  simp [moveOut, getQ_setQ_self]

theorem getQ_moveOut_ne (agent srcDir : String) (fs : FS) (f : File)
    (w : String) (h : w ≠ agent) :
    getQ (moveOut agent srcDir fs f).inProgress w =
      getQ fs.inProgress w := by
  simp [moveOut, getQ_setQ_ne _ _ _ _ h]

theorem moveOut_dirs_src (agent srcDir : String) (fs : FS) (f : File) :
    (moveOut agent srcDir fs f).dirs srcDir = putFile (fs.dirs srcDir) f := by
  simp [moveOut]

theorem abandon_count (agent srcDir : String) (mf : String → Bool)
    (now maxAge : Nat) :
    ∀ (l : List File) (c : Nat) (fs₁ : FS),
      (l.foldl (abandonStep agent srcDir mf now maxAge) (c, fs₁)).1 =
        c + l.countP (movedP mf now maxAge) := by
  intro l
  induction l with
  | nil => intro c fs₁; simp
  | cons f rest ih =>
    intro c fs₁
    simp only [List.foldl_cons]
    by_cases hmv : movedP mf now maxAge f = true
    · rw [abandonStep_moved _ _ _ _ _ _ _ hmv, ih, List.countP_cons]
      simp [hmv]
      omega
    · have hmv' : movedP mf now maxAge f = false := by simpa using hmv
      rw [abandonStep_not_moved _ _ _ _ _ _ _ hmv', ih, List.countP_cons]
      simp [hmv']

theorem abandon_other (agent srcDir : String) (mf : String → Bool)
    (now maxAge : Nat) (w : String) (hw : w ≠ agent) :
    ∀ (l : List File) (c : Nat) (fs₁ : FS),
      getQ ((l.foldl (abandonStep agent srcDir mf now maxAge)
          (c, fs₁)).2).inProgress w =
        getQ fs₁.inProgress w := by
  intro l
  induction l with
  | nil => intro c fs₁; rfl
  | cons f rest ih =>
    intro c fs₁
    simp only [List.foldl_cons]
    by_cases hmv : movedP mf now maxAge f = true
    · rw [abandonStep_moved _ _ _ _ _ _ _ hmv, ih,
        getQ_moveOut_ne _ _ _ _ _ hw]
    · have hmv' : movedP mf now maxAge f = false := by simpa using hmv
      rw [abandonStep_not_moved _ _ _ _ _ _ _ hmv', ih]

theorem abandon_scratch (agent srcDir : String) (mf : String → Bool)
    (now maxAge : Nat) :
    ∀ (l : List File) (c : Nat) (fs₁ : FS),
      getQ ((l.foldl (abandonStep agent srcDir mf now maxAge)
          (c, fs₁)).2).inProgress agent =
        (getQ fs₁.inProgress agent).filter
          (fun g => !(l.any
            (fun f => movedP mf now maxAge f && (g.name == f.name)))) := by
  intro l
  induction l with
  | nil => intro c fs₁; simp
  | cons f rest ih =>
    intro c fs₁
    simp only [List.foldl_cons]
    by_cases hmv : movedP mf now maxAge f = true
    · rw [abandonStep_moved _ _ _ _ _ _ _ hmv, ih, getQ_moveOut_self,
        List.filter_filter]
      apply List.filter_congr
      intro g hg
      simp [hmv, Bool.not_or, Bool.and_comm]
    · have hmv' : movedP mf now maxAge f = false := by simpa using hmv
      rw [abandonStep_not_moved _ _ _ _ _ _ _ hmv', ih]
      apply List.filter_congr
      intro g hg
      simp [hmv']

theorem abandon_dirs_keep (agent srcDir : String) (mf : String → Bool)
    (now maxAge : Nat) :
    ∀ (l : List File) (c : Nat) (fs₁ : FS) (f : File),
      f ∈ fs₁.dirs srcDir →
      (∀ g ∈ l, movedP mf now maxAge g = true → g.name ≠ f.name) →
      f ∈ ((l.foldl (abandonStep agent srcDir mf now maxAge)
          (c, fs₁)).2).dirs srcDir := by
  intro l
  induction l with
  | nil => intro c fs₁ f hf _; exact hf
  | cons g rest ih =>
    intro c fs₁ f hf hne
    simp only [List.foldl_cons]
    by_cases hmv : movedP mf now maxAge g = true
    · rw [abandonStep_moved _ _ _ _ _ _ _ hmv]
      refine ih _ _ _ ?_ (fun x hx => hne x (List.mem_cons_of_mem _ hx))
      rw [moveOut_dirs_src]
      have hgf : g.name ≠ f.name := hne g (List.mem_cons_self _ _) hmv
      have hfg : f.name ≠ g.name := fun h => hgf h.symm
      simp only [putFile, List.mem_append, List.mem_filter]
      exact Or.inl ⟨hf, by simp [hfg]⟩
    · have hmv' : movedP mf now maxAge g = false := by simpa using hmv
      rw [abandonStep_not_moved _ _ _ _ _ _ _ hmv']
      exact ih _ _ _ hf (fun x hx => hne x (List.mem_cons_of_mem _ hx))

theorem abandon_dirs_moved (agent srcDir : String) (mf : String → Bool)
    (now maxAge : Nat) :
    ∀ (l : List File) (c : Nat) (fs₁ : FS) (f : File),
      f ∈ l → movedP mf now maxAge f = true →
      l.Pairwise (fun a b => a.name ≠ b.name) →
      f ∈ ((l.foldl (abandonStep agent srcDir mf now maxAge)
          (c, fs₁)).2).dirs srcDir := by
  intro l
  induction l with
  | nil => intro c fs₁ f hf; cases hf
  | cons g rest ih =>
    intro c fs₁ f hf hmvf hpw
    simp only [List.foldl_cons]
    rcases List.mem_cons.1 hf with rfl | hf'
    · rw [abandonStep_moved _ _ _ _ _ _ _ hmvf]
      refine abandon_dirs_keep agent srcDir mf now maxAge rest _ _ f ?_
        (fun x hx _ => Ne.symm ((List.pairwise_cons.1 hpw).1 x hx))
      rw [moveOut_dirs_src]
      exact mem_putFile_self _ _
    · by_cases hmv : movedP mf now maxAge g = true
      · rw [abandonStep_moved _ _ _ _ _ _ _ hmv]
        exact ih _ _ _ hf' hmvf (List.pairwise_cons.1 hpw).2
      · have hmv' : movedP mf now maxAge g = false := by simpa using hmv
        rw [abandonStep_not_moved _ _ _ _ _ _ _ hmv']
        exact ih _ _ _ hf' hmvf (List.pairwise_cons.1 hpw).2

theorem abandon_shape (agent srcDir : String) (mf : String → Bool)
    (now maxAge : Nat) :
    ∀ (l : List File) (c : Nat) (fs₁ : FS),
      ((l.foldl (abandonStep agent srcDir mf now maxAge)
          (c, fs₁)).2).inProgress = fs₁.inProgress ∨
      ∃ Q, ((l.foldl (abandonStep agent srcDir mf now maxAge)
          (c, fs₁)).2).inProgress = setQ fs₁.inProgress agent Q := by
  intro l
  induction l with
  | nil => intro c fs₁; exact Or.inl rfl
  | cons f rest ih =>
    intro c fs₁
    simp only [List.foldl_cons]
    by_cases hmv : movedP mf now maxAge f = true
    · rw [abandonStep_moved _ _ _ _ _ _ _ hmv]
      rcases ih (c + 1) (moveOut agent srcDir fs₁ f) with he | ⟨Q, hQ⟩
      · exact Or.inr ⟨_, he⟩
      · refine Or.inr ⟨Q, ?_⟩
        rw [hQ]
        show setQ (setQ fs₁.inProgress agent _) agent Q = _
        rw [setQ_setQ]
    · have hmv' : movedP mf now maxAge f = false := by simpa using hmv
      rw [abandonStep_not_moved _ _ _ _ _ _ _ hmv']
      exact ih _ _

/-! ## Stale-claim recovery (C6) -/

/-- C6.  `abandon_stale` moves exactly the stale claims whose move
succeeds back to the fallback queue and returns their count: the count is
the number of stale-and-successfully-moved files of the scratch snapshot;
every fresh claim stays in the scratch queue; every moved claim is in the
fallback queue and gone from the scratch queue; and a moved claim is
claimable again — `claim` of its name from the fallback queue by any
worker succeeds (provided no other worker's scratch queue holds that
name, which a successful earlier claim guarantees). -/
theorem abandon_stale_spec :
    ∀ (agent : String) (mf : String → Bool) (fs : FS) (srcDir : String)
      (now maxAge : Nat),
      ((getQ fs.inProgress agent).map File.name).Nodup →
      ((abandon_stale agent mf fs srcDir now maxAge).1 =
          (list_claimed agent fs).countP (movedP mf now maxAge)) ∧
      (∀ f ∈ list_claimed agent fs, isStale now maxAge f = false →
        f ∈ getQ (abandon_stale agent mf fs srcDir now maxAge).2.inProgress
            agent) ∧
      (∀ f ∈ list_claimed agent fs, isStale now maxAge f = true →
        mf f.name = false →
        f ∈ (abandon_stale agent mf fs srcDir now maxAge).2.dirs srcDir ∧
        (∀ g ∈ getQ
            (abandon_stale agent mf fs srcDir now maxAge).2.inProgress agent,
          g.name ≠ f.name)) ∧
      (∀ f ∈ list_claimed agent fs, isStale now maxAge f = true →
        mf f.name = false →
        (fs.inProgress.map Prod.fst).Nodup →
        (∀ wq ∈ fs.inProgress, wq.1 ≠ agent →
          ∀ g ∈ wq.2, g.name ≠ f.name) →
        ∀ B, ∃ p fs',
          claimE B noErr (abandon_stale agent mf fs srcDir now maxAge).2
            srcDir f.name = .ok (some p, fs')) := by
  intro agent mf fs srcDir now maxAge hnd
  have hfold : abandon_stale agent mf fs srcDir now maxAge =
      (list_claimed agent fs).foldl
        (abandonStep agent srcDir mf now maxAge) (0, fs) := rfl
  have hpw : (getQ fs.inProgress agent).Pairwise
      (fun a b => a.name ≠ b.name) := List.pairwise_map.1 hnd
  have hpwl : (list_claimed agent fs).Pairwise
      (fun a b => a.name ≠ b.name) :=
    List.Pairwise.sublist (List.filter_sublist _) hpw
  have hsym : Symmetric (fun a b : File => a.name ≠ b.name) :=
    fun x y h => Ne.symm h
  have hdist : ∀ a ∈ list_claimed agent fs, ∀ b ∈ list_claimed agent fs,
      a ≠ b → a.name ≠ b.name :=
    fun a ha b hb hab => List.Pairwise.forall hsym hpwl ha hb hab
  refine ⟨?_, ?_, ?_, ?_⟩
  · rw [hfold]
    simpa using abandon_count agent srcDir mf now maxAge
      (list_claimed agent fs) 0 fs
  · intro f hf hfresh
    have hfscr : f ∈ getQ fs.inProgress agent := (List.mem_filter.1 hf).1
    rw [hfold, abandon_scratch]
    refine List.mem_filter.2 ⟨hfscr, ?_⟩
    have hany : ((list_claimed agent fs).any
        (fun g => movedP mf now maxAge g && (f.name == g.name))) = false := by
      rw [List.any_eq_false]
      intro g hg
      by_cases hmg : movedP mf now maxAge g = true
      · have hgst : isStale now maxAge g = true := by
          unfold movedP at hmg
          simp only [Bool.and_eq_true] at hmg
          exact hmg.1
        have hgf : f ≠ g := by
          intro he
          rw [← he] at hgst
          rw [hfresh] at hgst
          cases hgst
        have hnames : f.name ≠ g.name := hdist f hf g hg hgf
        simp [hmg, hnames]
      · have hmg' : movedP mf now maxAge g = false := by simpa using hmg
        simp [hmg']
    simp [hany]
  · intro f hf hst hmf
    have hmv : movedP mf now maxAge f = true := by simp [movedP, hst, hmf]
    constructor
    · rw [hfold]
      exact abandon_dirs_moved agent srcDir mf now maxAge _ 0 fs f hf hmv hpwl
    · intro g hg
      rw [hfold, abandon_scratch] at hg
      have hpred := (List.mem_filter.1 hg).2
      intro hge
      have hwit : ((list_claimed agent fs).any
          (fun x => movedP mf now maxAge x && (g.name == x.name))) = true := by
        refine List.any_eq_true.2 ⟨f, hf, ?_⟩
        simp [hmv, hge]
      rw [hwit] at hpred
      cases hpred
  · intro f hf hst hmf hknd hothers B
    have hmv : movedP mf now maxAge f = true := by simp [movedP, hst, hmf]
    rw [hfold]
    set P := ((list_claimed agent fs).foldl
      (abandonStep agent srcDir mf now maxAge) (0, fs)).2 with hP
    have hin : f ∈ P.dirs srcDir := by
      rw [hP]
      exact abandon_dirs_moved agent srcDir mf now maxAge _ 0 fs f hf hmv hpwl
    have hscr : ∀ g ∈ getQ P.inProgress agent, g.name ≠ f.name := by
      intro g hg
      rw [hP, abandon_scratch] at hg
      have hpred := (List.mem_filter.1 hg).2
      intro hge
      have hwit : ((list_claimed agent fs).any
          (fun x => movedP mf now maxAge x && (g.name == x.name))) = true := by
        refine List.any_eq_true.2 ⟨f, hf, ?_⟩
        simp [hmv, hge]
      rw [hwit] at hpred
      cases hpred
    have hscan : is_claimed_by_anyone P f.name = false := by
      rcases abandon_shape agent srcDir mf now maxAge
          (list_claimed agent fs) 0 fs with he | ⟨Q, hQ⟩
      · exfalso
        have hfscr : f ∈ getQ fs.inProgress agent := (List.mem_filter.1 hf).1
        have h1 : f ∈ getQ P.inProgress agent := by
          rw [hP, he]
          exact hfscr
        exact hscr f h1 rfl
      · unfold is_claimed_by_anyone
        rw [hP, hQ, List.any_eq_false]
        intro wq hwq
        rcases mem_setQ_of_nodup _ _ _ hknd wq hwq with hwq' | ⟨hin', hne⟩
        · have hq : wq.2.any (fun g => g.name == f.name) = false := by
            rw [List.any_eq_false]
            intro x hx
            have hxQ : x ∈ getQ P.inProgress agent := by
              rw [hP, hQ, getQ_setQ_self]
              rw [hwq'] at hx
              exact hx
            have := hscr x hxQ
            simp [this]
          simp [hq]
        · have hq : wq.2.any (fun g => g.name == f.name) = false := by
            rw [List.any_eq_false]
            intro x hx
            have := hothers wq hin' hne x hx
            simp [this]
          simp [hq]
    cases hfind : (P.dirs srcDir).find? (fun x => x.name == f.name) with
    | none =>
      exfalso
      have := List.find?_eq_none.1 hfind f hin
      simp at this
    | some g =>
      have hclaim : claimE B noErr P srcDir f.name =
          .ok (some ("In_Progress/" ++ B ++ "/" ++ f.name),
            { inProgress :=
                setQ P.inProgress B (putFile (getQ P.inProgress B) g),
              dirs := fun d =>
                if d = srcDir then
                  (P.dirs srcDir).filter (fun x => !(x.name == f.name))
                else P.dirs d }) := by
        unfold claimE
        rw [hfind]
        simp [hscan, noErr]
      exact ⟨_, _, hclaim⟩

/-- Witness for C6: at `fsStale` the sweep abandons exactly the two stale
claims, and the returned `s1.md` is claimable again by `local`. -/
theorem abandon_stale_spec_witness :
    (abandon_stale "cloud" (fun _ => false) fsStale "Needs_Action"
      20000 2).1 = 2 ∧
    (∃ p fs', claimE "local" noErr
      (abandon_stale "cloud" (fun _ => false) fsStale "Needs_Action"
        20000 2).2 "Needs_Action" "s1.md" = .ok (some p, fs')) := by
  have h := abandon_stale_spec "cloud" (fun _ => false) fsStale
    "Needs_Action" 20000 2 (by decide)
  constructor
  · rw [h.1]
    decide
  · exact h.2.2.2 ⟨"s1.md", "a", 0⟩ (by decide) (by decide) (by decide)
      (by decide) (by decide) "local"

/-! ## Configuration -/

/-- C10.  The dry-run switch is on exactly when the lower-cased value of
the `DRY_RUN` environment variable is `"true"`, `"1"` or `"yes"`, and it
defaults to on when the variable is unset. -/
theorem dry_run_default_on :
    (∀ s : String, dry_run_of (some s) = true ↔
      (pyLower s = "true" ∨ pyLower s = "1" ∨ pyLower s = "yes")) ∧
    dry_run_of none = true := by
  refine ⟨fun s => ?_, by decide⟩
  simp [dry_run_of, List.contains, Option.getD]

end Vault
